import Mathlib

/-!
# Verification of the SignalBridge serial test-suite core

Shallow embedding of the serial transport and measurement engine of the
`signalbridge-test-suite` repository.  Bytes are modelled as `Nat` values
(Python iterates over `bytes` yielding integers 0..255), byte strings as
`List Nat`, Python floats as exact rationals `ℚ`, dictionaries as
association lists, and fallible operations as `Option`.
-/

namespace SignalBridge

/-! ## Checksum (src/src/checksum.py, `calculate_checksum`) -/

/-- XOR-fold of all bytes, the accumulator of `calculate_checksum`. -/
def xorFold (data : List Nat) : Nat :=
  data.foldl (fun checksum byte => checksum ^^^ byte) 0

/-- `calculate_checksum(data)`: XOR all bytes, return a 1-byte string. -/
def calculate_checksum (data : List Nat) : List Nat :=
  [xorFold data]

/-! ## COBS codec

Modelled from the spec: the repository calls `cobs.encode` / `cobs.decode`
from the third-party `cobs` package, whose source is not part of the
repository.  The spec (§4.2, glossary) specifies standard Consistent
Overhead Byte Stuffing: encode maps any input to a byte string containing
no `0x00`; decode inverts it; decode failure is a recoverable error
(modelled as `none`).  The definitions below implement standard COBS with
the usual 254-byte group limit: each group of up to 254 non-zero input
bytes is emitted behind a length code `group.length + 1`; a full group of
254 bytes gets code `0xFF` and implies no zero after it on decode. -/

/-- The leading group of a COBS encoding step: up to 254 non-zero bytes. -/
def cobsGroup (l : List Nat) : List Nat :=
  (l.takeWhile (fun b => b != 0)).take 254

/-- Modelled from the spec: `cobs.encode` (standard COBS). -/
def cobsEncode (l : List Nat) : List Nat :=
  let g := cobsGroup l
  if g.length = 254 then
    match hr : l.drop g.length with
    | [] => 255 :: g
    | x :: xs => 255 :: (g ++ cobsEncode (x :: xs))
  else
    match hr : l.drop g.length with
    | [] => (g.length + 1) :: g
    | _ :: rs => ((g.length + 1) :: g) ++ cobsEncode rs
termination_by l.length
decreasing_by
  · have hlen := congrArg List.length hr
    simp only [List.length_drop, List.length_cons] at hlen ⊢
    omega
  · have hlen := congrArg List.length hr
    simp only [List.length_drop, List.length_cons] at hlen ⊢
    omega

/-- Modelled from the spec: `cobs.decode` (standard COBS); `none` models
`cobs.DecodeError` (zero byte in input, or truncated group). -/
def cobsDecode (l : List Nat) : Option (List Nat) :=
  match l with
  | [] => some []
  | c :: rest =>
    if c = 0 then none
    else
      let block := rest.take (c - 1)
      if block.length < c - 1 then none
      else if block.any (fun b => b == 0) then none
      else
        let rest2 := rest.drop (c - 1)
        if rest2.isEmpty then some block
        else
          match cobsDecode rest2 with
          | none => none
          | some tail => some (block ++ (if c < 255 then 0 :: tail else tail))
termination_by l.length
decreasing_by
  simp only [List.length_drop, List.length_cons]
  omega

/-! ## Receive buffer and framer
(src/src/serial_interface.py, `SerialInterface._handle_received_data`)

State carried across chunks: the `statistics.bytes_received` counter, the
hardware RTS line (`self.ser.rts`), the reassembly accumulator
(`self.buffer`) and the inbound message queue (`self.message_queue`,
modelled as the list of frames enqueued so far).  The reader thread calls
the framer with `max_message_size = 1024`; the watermark class constants
are `BUFFER_HIGH_WATER = 768` and `BUFFER_LOW_WATER = 256`. -/

structure RecvState where
  bytes_received : Nat
  rts : Bool
  buffer : List Nat
  queue : List (List Nat)
deriving DecidableEq, Repr

def BUFFER_HIGH_WATER : Nat := 768
def BUFFER_LOW_WATER : Nat := 256

/-- The body of the framer's `for byte in data` loop: a `0x00` delimiter
enqueues a non-empty accumulator (consecutive delimiters enqueue nothing);
any other byte is appended, and an accumulator that exceeds
`max_message_size` is cleared (after a logged warning, not modelled). -/
def handleByte (max_message_size : Nat) (st : RecvState) (byte : Nat) : RecvState :=
  if byte = 0 then
    if st.buffer.isEmpty then st
    else { st with queue := st.queue ++ [st.buffer], buffer := [] }
  else
    let buffer := st.buffer ++ [byte]
    if buffer.length > max_message_size then { st with buffer := [] }
    else { st with buffer := buffer }

/-- `SerialInterface._handle_received_data(data, max_message_size)`:
counts the chunk into `bytes_received`, updates RTS from the accumulator
length carried over from previous chunks (only when the port object
exists, `ser_open`), then runs the byte loop. -/
def handle_received_data (high low max_message_size : Nat) (ser_open : Bool)
    (st : RecvState) (data : List Nat) : RecvState :=
  let st1 := { st with bytes_received := st.bytes_received + data.length }
  let st2 :=
    if ser_open then
      if st1.buffer.length > high then { st1 with rts := false }
      else if st1.buffer.length < low then { st1 with rts := true }
      else st1
    else st1
  data.foldl (handleByte max_message_size) st2

/-! ## Outbound write path
(src/src/serial_interface.py, `SerialInterface.write`)

`statistics.commands_sent` is a `defaultdict(int)`, modelled as an
association list bumped by `bumpCount`; `transmitted` records the byte
strings handed to `self.ser.write` (which returns the byte count,
modelled as the message length).  The `IndexError` raised by `data[1]`
on a short payload is caught by the surrounding `except IndexError`;
it fires only after the port write and the `bytes_sent` update. -/

def bumpCount (m : List (Nat × Nat)) (key : Nat) : List (Nat × Nat) :=
  match m.lookup key with
  | some v => m.map (fun kv => if kv.1 = key then (kv.1, v + 1) else kv)
  | none => m ++ [(key, 1)]

structure WriteState where
  bytes_sent : Nat
  commands_sent : List (Nat × Nat)
  transmitted : List (List Nat)
deriving DecidableEq, Repr

/-- `SerialInterface.write(data)`.  `ser_open` models `self.ser` being
non-None, `stop_set` models `self.stop_event.is_set()`. -/
def SerialInterface_write (ser_open stop_set : Bool) (st : WriteState)
    (data : List Nat) : WriteState :=
  if ser_open then
    if stop_set then st
    else
      let checksum := calculate_checksum data
      let payload_with_checksum := data ++ checksum
      let message := cobsEncode payload_with_checksum ++ [0]
      let bytes_writen := message.length
      let st1 := { st with bytes_sent := st.bytes_sent + bytes_writen,
                           transmitted := st.transmitted ++ [message] }
      match data[1]? with
      | some b => { st1 with commands_sent := bumpCount st1.commands_sent (b.land 0x1F) }
      | none => st1
  else st

/-! ## Inbound frame processing
(src/src/serial_interface.py, `SerialInterface._process_complete_message`)

Modelled from the spec: line 190 of the source reads
`except IndexError, cobs.DecodeError:`, which is not valid Python 3
syntax (the module cannot even be imported), so the handler is modelled
from the spec's stated intent (§4.5): COBS decode errors and index
errors on a short decoded payload are caught, logged and skipped.
`dispatched` records the `(command, decoded_data, byte_string)` calls
made to the registered message handler. -/

structure ProcState where
  commands_received : List (Nat × Nat)
  dispatched : List (Nat × List Nat × List Nat)
deriving DecidableEq, Repr

def process_complete_message (st : ProcState) (byte_string : List Nat) : ProcState :=
  match cobsDecode byte_string with
  | none => st
  | some decoded_data =>
    match decoded_data[1]? with
    | none => st
    | some b =>
      let command := b.land 0x1F
      { commands_received := bumpCount st.commands_received command,
        dispatched := st.dispatched ++ [(command, decoded_data, byte_string)] }

/-! ## Latency meter, list-based variant
(src/src/latency_test.py, `LatencyTest`)

`latency_message` is a dense list of `MAX_SAMPLE_SIZE = 65536` floats,
pre-initialised to `0.0`; `latency_results` is the list of recorded
round-trip times.  Times are modelled as exact rationals; `now` stands
for `time.perf_counter()`. -/

def MAX_SAMPLE_SIZE : Nat := 65536
def ECHO_COMMAND : Nat := 20

structure LTState where
  latency_message : List ℚ
  latency_results : List ℚ
deriving DecidableEq

def LT_init : LTState :=
  { latency_message := List.replicate MAX_SAMPLE_SIZE 0, latency_results := [] }

/-- `LatencyTest.publish(iteration_counter, message_length)`: stamps
`latency_message[iteration_counter]` with the current time (the payload
build is modelled by `echo_payload` below). -/
def LT_publish (now : ℚ) (st : LTState) (iteration_counter : Nat) : LTState :=
  { st with latency_message := st.latency_message.set iteration_counter now }

/-- `LatencyTest.handle_message(command, decoded_data)`: on ECHO, reads
the 2-byte big-endian counter from bytes 3..4 (an `IndexError` on a
short payload is caught), computes `now - latency_message[counter]` and
appends it to `latency_results`.  The list read never raises because a
2-byte counter is always `< 65536`. -/
def LT_handle_message (now : ℚ) (st : LTState) (command : Nat)
    (decoded_data : List Nat) : LTState :=
  if command = ECHO_COMMAND then
    match decoded_data[3]?, decoded_data[4]? with
    | some b3, some b4 =>
      let counter := b3 * 256 + b4
      let latency := now - st.latency_message.getD counter 0
      { st with latency_results := st.latency_results ++ [latency] }
    | _, _ => st
  else st

/-- `LatencyTest._calculate_test_results`: `dropped_messages = samples -
len(self.latency_results)` (Python ints, so the difference can be
negative). -/
def LT_dropped_messages (samples : Nat) (st : LTState) : Int :=
  (samples : Int) - (st.latency_results.length : Int)

/-! ## Latency meter, dictionary-based variant
(src/src/base_test.py, `BaseTest.publish` / `BaseTest.handle_message`)

`latency_msg_sent` and `latency_msg_received` are Python dicts keyed by
counter, modelled as association lists with unique keys (`dictSet`
replicates `d[k] = v`). -/

def dictSet (m : List (Nat × ℚ)) (key : Nat) (v : ℚ) : List (Nat × ℚ) :=
  if (m.lookup key).isSome then
    m.map (fun kv => if kv.1 = key then (kv.1, v) else kv)
  else m ++ [(key, v)]

structure BTState where
  latency_msg_sent : List (Nat × ℚ)
  latency_msg_received : List (Nat × ℚ)
deriving DecidableEq

/-- `BaseTest.publish`: records the send timestamp under the counter. -/
def BT_publish (now : ℚ) (st : BTState) (iteration_counter : Nat) : BTState :=
  { st with latency_msg_sent := dictSet st.latency_msg_sent iteration_counter now }

/-- `BaseTest.handle_message`, ECHO branch: reads the counter from bytes
3..4 (IndexError caught), looks the counter up in `latency_msg_sent`
(KeyError on a stale counter caught, nothing recorded), and otherwise
stores the round-trip time in `latency_msg_received[counter]`.  The
STATISTICS/TASK branches touch neither latency dict. -/
def BT_handle_message (now : ℚ) (st : BTState) (command : Nat)
    (decoded_data : List Nat) : BTState :=
  if command = ECHO_COMMAND then
    match decoded_data[3]?, decoded_data[4]? with
    | some b3, some b4 =>
      let counter := b3 * 256 + b4
      match st.latency_msg_sent.lookup counter with
      | none => st
      | some sent_time =>
        let latency := now - sent_time
        { st with latency_msg_received := dictSet st.latency_msg_received counter latency }
    | _, _ => st
  else st

/-- `BaseTest._calculate_test_results`:
`dropped_messages = len(latency_msg_sent) - len(latency_msg_received)`. -/
def BT_dropped_messages (st : BTState) : Int :=
  (st.latency_msg_sent.length : Int) - (st.latency_msg_received.length : Int)

/-! ## Samples validation and counter encoding
(src/src/latency_test.py, `LatencyTest._show_options` step 4 and
`LatencyTest.publish`) -/

def DEFAULT_SAMPLES : Nat := 255

/-- The `(4/6) Enter number of samples` validation in `_show_options`:
`if num_samples <= 0 and num_samples < MAX_SAMPLE_SIZE:` replaces the
value with the default. -/
def validate_num_samples (num_samples : Int) : Int :=
  if num_samples ≤ 0 ∧ num_samples < (MAX_SAMPLE_SIZE : Int) then
    (DEFAULT_SAMPLES : Int)
  else num_samples

/-- `iteration_counter.to_bytes(2, byteorder="big")`: `none` models the
`OverflowError` raised when the value does not fit in two bytes. -/
def to_bytes_be_2 (n : Nat) : Option (List Nat) :=
  if n < 65536 then some [n / 256, n % 256] else none

/-! ## Verdict engine (src/src/stress_evaluator.py)

Floats are modelled as exact rationals; the human-readable
`failure_reasons` strings are not modelled (the claims concern only the
verdict).  `status_delta` and `max_error_counter_deltas` are dicts,
modelled as association lists; `.get(key, 0)` is `deltaGet`. -/

inductive Verdict where
  | PASS
  | WARN
  | FAIL
deriving DecidableEq, Repr

structure ScenarioThresholds where
  max_echo_drop_ratio : ℚ
  max_error_counter_deltas : List (String × Int)
  max_p95_latency_ms : ℚ

structure ScenarioConfig where
  command_profile : String
  thresholds : ScenarioThresholds

def deltaGet (status_delta : List (String × Int)) (key : String) : Int :=
  (status_delta.lookup key).getD 0

/-- Ascending insertion, building the behaviour of Python's `sorted`. -/
def insertAsc (x : ℚ) : List ℚ → List ℚ
  | [] => [x]
  | y :: ys => if x ≤ y then x :: y :: ys else y :: insertAsc x ys

def sortAsc (l : List ℚ) : List ℚ := l.foldr insertAsc []

/-- `_percentile(values, pct)`: linear-interpolation percentile; 0 on an
empty list. -/
def percentile (values : List ℚ) (pct : ℚ) : ℚ :=
  if values.isEmpty then 0
  else
    let sorted_v := sortAsc values
    let k : ℚ := ((sorted_v.length : ℚ) - 1) * pct / 100
    let lo := ⌊k⌋
    let hi := ⌈k⌉
    if lo = hi then sorted_v.getD lo.toNat 0
    else sorted_v.getD lo.toNat 0 * ((hi : ℚ) - k) + sorted_v.getD hi.toNat 0 * (k - (lo : ℚ))

/-- The drop ratio computed inside `evaluate_verdict`: `max(0, sent -
received) / sent` (0 when `sent = 0`), with the explained error-counter
deltas subtracted first for the `noise_and_recovery` profile. -/
def drop_ratio_of (cfg : ScenarioConfig) (messages_sent messages_received : Nat)
    (status_delta : List (String × Int)) : ℚ :=
  let dropped : Int := max 0 ((messages_sent : Int) - (messages_received : Int))
  if cfg.command_profile = "noise_and_recovery" then
    let explained_drops :=
      deltaGet status_delta "cobs_decode_error"
      + deltaGet status_delta "msg_malformed_error"
      + deltaGet status_delta "checksum_error"
      + deltaGet status_delta "receive_buffer_overflow_error"
      + deltaGet status_delta "buffer_overflow_error"
    let unexplained_drops : Int := max 0 (dropped - explained_drops)
    if 0 < messages_sent then (unexplained_drops : ℚ) / (messages_sent : ℚ) else 0
  else
    if 0 < messages_sent then (dropped : ℚ) / (messages_sent : ℚ) else 0

/-- `evaluate_verdict(cfg, messages_sent, messages_received,
latencies_ms, status_delta)`, verdict component. -/
def evaluate_verdict (cfg : ScenarioConfig) (messages_sent messages_received : Nat)
    (latencies_ms : List ℚ) (status_delta : List (String × Int)) : Verdict :=
  let thresholds := cfg.thresholds
  let drop_ratio := drop_ratio_of cfg messages_sent messages_received status_delta
  let is_fail1 := decide (drop_ratio > thresholds.max_echo_drop_ratio)
  let is_fail2 := thresholds.max_error_counter_deltas.any
    (fun kv => decide (deltaGet status_delta kv.1 > kv.2))
  let p95 := percentile latencies_ms 95
  let is_warn := decide (p95 > thresholds.max_p95_latency_ms)
  if is_fail1 || is_fail2 then Verdict.FAIL
  else if is_warn then Verdict.WARN
  else Verdict.PASS

/-- The FAIL condition as the claim states it: the drop ratio strictly
exceeds `max_echo_drop_ratio`, or some configured error-counter delta is
strictly above its limit. -/
def failCond (cfg : ScenarioConfig) (messages_sent messages_received : Nat)
    (status_delta : List (String × Int)) : Prop :=
  drop_ratio_of cfg messages_sent messages_received status_delta
      > cfg.thresholds.max_echo_drop_ratio
  ∨ ∃ kv ∈ cfg.thresholds.max_error_counter_deltas,
      deltaGet status_delta kv.1 > kv.2

instance (cfg : ScenarioConfig) (s r : Nat) (sd : List (String × Int)) :
    Decidable (failCond cfg s r sd) := by
  unfold failCond
  infer_instance

/-- The byte loop touches only the accumulator and the queue; its effect
factors through this pure step function on `(buffer, queue)` pairs. -/
def stepBQ (max_message_size : Nat) (p : List Nat × List (List Nat))
    (byte : Nat) : List Nat × List (List Nat) :=
  if byte = 0 then
    if p.1.isEmpty then p else ([], p.2 ++ [p.1])
  else
    let buffer := p.1 ++ [byte]
    if buffer.length > max_message_size then ([], p.2) else (buffer, p.2)

/-! ### COBS codec facts -/

theorem cobsGroup_length_le (l : List Nat) : (cobsGroup l).length ≤ 254 := by
  simp only [cobsGroup, List.length_take]
  exact Nat.min_le_left _ _

theorem cobsGroup_nonzero (l : List Nat) : ∀ b ∈ cobsGroup l, b ≠ 0 := by
  intro b hb
  have hb' : b ∈ l.takeWhile (fun b => b != 0) := List.mem_of_mem_take hb
  have h2 := List.mem_takeWhile_imp hb'
  simp only [bne_iff_ne, ne_eq] at h2
  exact h2

theorem cobsGroup_append_drop (l : List Nat) :
    cobsGroup l ++ l.drop (cobsGroup l).length = l := by
  obtain ⟨t, ht⟩ : cobsGroup l <+: l :=
    ( List.take_prefix _ _).trans ( List.takeWhile_prefix _)
  have hd := List.drop_left (cobsGroup l) t
  rw [ht] at hd
  rw [hd, ht]

theorem dropWhile_ne_zero_head (l : List Nat) (x : Nat) (xs : List Nat)
    (h : l.dropWhile (fun b => b != 0) = x :: xs) : x = 0 := by
  induction l with
  | nil => simp [List.dropWhile] at h
  | cons a t ih =>
    by_cases ha : a = 0
    · rw [List.dropWhile_cons] at h
      simp [ha] at h
      exact h.1.symm
    · rw [List.dropWhile_cons] at h
      simp [ha] at h
      exact ih h

/-- If the leading group stopped before 254 bytes, the next byte of the
input (if any) is a zero. -/
theorem cobsGroup_drop_head_zero (l : List Nat) (x : Nat) (xs : List Nat)
    (hlt : (cobsGroup l).length ≠ 254)
    (h : l.drop (cobsGroup l).length = x :: xs) : x = 0 := by
  have htw : cobsGroup l = l.takeWhile (fun b => b != 0) := by
    by_cases hge : 254 ≤ (l.takeWhile (fun b => b != 0)).length
    · exfalso
      apply hlt
      simp [cobsGroup, List.length_take]
      omega
    · push_neg at hge
      exact List.take_of_length_le (Nat.le_of_lt hge)
  have hdw : l.drop (cobsGroup l).length = l.dropWhile (fun b => b != 0) := by
    have h2 := List.drop_left (l.takeWhile (fun b => b != 0))
      (l.dropWhile (fun b => b != 0))
    rw [List.takeWhile_append_dropWhile] at h2
    rw [htw, h2]
  exact dropWhile_ne_zero_head l x xs (hdw ▸ h)

theorem cobsEncode_full_nil (l : List Nat) (h254 : (cobsGroup l).length = 254)
    (hdrop : l.drop (cobsGroup l).length = []) :
    cobsEncode l = 255 :: cobsGroup l := by
  rw [cobsEncode, if_pos h254]
  split
  · rfl
  · rename_i heq
    rw [hdrop] at heq
    exact List.noConfusion heq

theorem cobsEncode_full_cons (l : List Nat) (x : Nat) (xs : List Nat)
    (h254 : (cobsGroup l).length = 254)
    (hdrop : l.drop (cobsGroup l).length = x :: xs) :
    cobsEncode l = 255 :: (cobsGroup l ++ cobsEncode (x :: xs)) := by
  rw [cobsEncode, if_pos h254]
  split
  · rename_i heq
    rw [hdrop] at heq
    exact List.noConfusion heq
  · rename_i x' xs' heq
    rw [hdrop] at heq
    injection heq with h1 h2
    rw [h1, h2]

theorem cobsEncode_small_nil (l : List Nat) (h254 : (cobsGroup l).length ≠ 254)
    (hdrop : l.drop (cobsGroup l).length = []) :
    cobsEncode l = ((cobsGroup l).length + 1) :: cobsGroup l := by
  rw [cobsEncode, if_neg h254]
  split
  · rfl
  · rename_i heq
    rw [hdrop] at heq
    exact List.noConfusion heq

theorem cobsEncode_small_cons (l : List Nat) (x : Nat) (xs : List Nat)
    (h254 : (cobsGroup l).length ≠ 254)
    (hdrop : l.drop (cobsGroup l).length = x :: xs) :
    cobsEncode l = (((cobsGroup l).length + 1) :: cobsGroup l) ++ cobsEncode xs := by
  rw [cobsEncode, if_neg h254]
  split
  · rename_i heq
    rw [hdrop] at heq
    exact List.noConfusion heq
  · rename_i x' xs' heq
    rw [hdrop] at heq
    injection heq with h1 h2
    rw [h2]

theorem cobsEncode_ne_nil (l : List Nat) : cobsEncode l ≠ [] := by
  by_cases h254 : (cobsGroup l).length = 254 <;>
    rcases hdrop : l.drop (cobsGroup l).length with _ | ⟨x, xs⟩
  · rw [cobsEncode_full_nil l h254 hdrop]; simp
  · rw [cobsEncode_full_cons l x xs h254 hdrop]; simp
  · rw [cobsEncode_small_nil l h254 hdrop]; simp
  · rw [cobsEncode_small_cons l x xs h254 hdrop]; simp

/-- One decoding step: a length code `g.length + 1` followed by the group
bytes and the remaining encoded stream. -/
theorem cobsDecode_group (g e : List Nat)
    (hnz : ∀ b ∈ g, b ≠ 0) :
    cobsDecode ((g.length + 1) :: (g ++ e)) =
      match e with
      | [] => some g
      | _ :: _ =>
        match cobsDecode e with
        | none => none
        | some tail => some (g ++ (if g.length + 1 < 255 then 0 :: tail else tail)) := by
  have hany : (g ++ e).take g.length = g := List.take_left g e
  have hany2 : g.any (fun b => b == 0) = false := by
    rw [Bool.eq_false_iff]
    intro hc
    obtain ⟨b, hb, hbeq⟩ := List.any_eq_true.mp hc
    exact hnz b hb (by simpa using hbeq)
  rw [cobsDecode]
  simp only [Nat.add_sub_cancel, hany, List.drop_left, lt_irrefl, if_false,
    Nat.succ_ne_zero, hany2]
  rcases e with _ | ⟨y, ys⟩
  · simp
  · simp

/-- The COBS-encoded body never contains the `0x00` delimiter byte. -/
theorem cobsEncode_no_zero (l : List Nat) : ∀ b ∈ cobsEncode l, b ≠ 0 := by
  suffices H : ∀ n (l : List Nat), l.length ≤ n → ∀ b ∈ cobsEncode l, b ≠ 0 from
    H l.length l le_rfl
  intro n
  induction n with
  | zero =>
    intro l hl b hb
    have hl0 : l = [] := by
      cases l with
      | nil => rfl
      | cons a t => simp at hl
    subst hl0
    rw [cobsEncode_small_nil [] (by simp [cobsGroup]) (by simp)] at hb
    rcases List.mem_cons.mp hb with rfl | hbg
    · simp
    · exact cobsGroup_nonzero _ b hbg
  | succ n ih =>
    intro l hl b hb
    have hsplit := congrArg List.length (cobsGroup_append_drop l)
    rw [List.length_append] at hsplit
    by_cases h254 : (cobsGroup l).length = 254 <;>
      rcases hdrop : l.drop (cobsGroup l).length with _ | ⟨x, xs⟩
    · rw [cobsEncode_full_nil l h254 hdrop] at hb
      rcases List.mem_cons.mp hb with rfl | hbg
      · simp
      · exact cobsGroup_nonzero _ b hbg
    · rw [cobsEncode_full_cons l x xs h254 hdrop] at hb
      have hxs : (x :: xs).length ≤ n := by
        rw [hdrop] at hsplit
        simp only [List.length_cons] at hsplit ⊢
        omega
      rcases List.mem_cons.mp hb with rfl | hbge
      · simp
      · rcases List.mem_append.mp hbge with hbg | hbe
        · exact cobsGroup_nonzero _ b hbg
        · exact ih (x :: xs) hxs b hbe
    · rw [cobsEncode_small_nil l h254 hdrop] at hb
      rcases List.mem_cons.mp hb with rfl | hbg
      · simp
      · exact cobsGroup_nonzero _ b hbg
    · rw [cobsEncode_small_cons l x xs h254 hdrop] at hb
      have hxs : xs.length ≤ n := by
        rw [hdrop] at hsplit
        simp only [List.length_cons] at hsplit
        omega
      rcases List.mem_cons.mp hb with rfl | hbge
      · simp
      · rcases List.mem_append.mp hbge with hbg | hbe
        · exact cobsGroup_nonzero _ b hbg
        · exact ih xs hxs b hbe

/-- COBS decode inverts COBS encode (the spec's codec law: decode inverts
encode on every input). -/
theorem cobsDecode_cobsEncode (l : List Nat) :
    cobsDecode (cobsEncode l) = some l := by
  suffices H : ∀ n (l : List Nat), l.length ≤ n → cobsDecode (cobsEncode l) = some l from
    H l.length l le_rfl
  intro n
  induction n with
  | zero =>
    intro l hl
    have hl0 : l = [] := by
      cases l with
      | nil => rfl
      | cons a t => simp at hl
    subst hl0
    rw [cobsEncode_small_nil [] (by simp [cobsGroup]) (by simp)]
    have h := cobsDecode_group (cobsGroup []) [] (cobsGroup_nonzero [])
    simpa using h
  | succ n ih =>
    intro l hl
    have happ := cobsGroup_append_drop l
    have hsplit := congrArg List.length happ
    rw [List.length_append] at hsplit
    by_cases h254 : (cobsGroup l).length = 254 <;>
      rcases hdrop : l.drop (cobsGroup l).length with _ | ⟨x, xs⟩
    · -- full final group, nothing after it
      rw [cobsEncode_full_nil l h254 hdrop]
      have h := cobsDecode_group (cobsGroup l) [] (cobsGroup_nonzero l)
      rw [List.append_nil] at h
      rw [show (255 : Nat) = (cobsGroup l).length + 1 by omega, h]
      rw [hdrop, List.append_nil] at happ
      rw [happ]
    · -- full group followed by more input
      rw [cobsEncode_full_cons l x xs h254 hdrop]
      have hxs : (x :: xs).length ≤ n := by
        rw [hdrop] at hsplit
        simp only [List.length_cons] at hsplit ⊢
        omega
      have htail := ih (x :: xs) hxs
      have h := cobsDecode_group (cobsGroup l) (cobsEncode (x :: xs))
        (cobsGroup_nonzero l)
      rw [show (255 : Nat) = (cobsGroup l).length + 1 by omega, h]
      rcases he : cobsEncode (x :: xs) with _ | ⟨c0, e'⟩
      · exact absurd he (cobsEncode_ne_nil (x :: xs))
      · rw [he] at htail
        rw [htail]
        have hnotlt : ¬((cobsGroup l).length + 1 < 255) := by omega
        rw [hdrop] at happ
        simp [hnotlt, happ]
    · -- short final group, nothing after it
      rw [cobsEncode_small_nil l h254 hdrop]
      have h := cobsDecode_group (cobsGroup l) [] (cobsGroup_nonzero l)
      rw [List.append_nil] at h
      rw [h]
      rw [hdrop, List.append_nil] at happ
      rw [happ]
    · -- short group terminated by a zero byte, followed by more input
      have hx0 : x = 0 := cobsGroup_drop_head_zero l x xs h254 hdrop
      rw [cobsEncode_small_cons l x xs h254 hdrop]
      have hxs : xs.length ≤ n := by
        rw [hdrop] at hsplit
        simp only [List.length_cons] at hsplit
        omega
      have htail := ih xs hxs
      have h := cobsDecode_group (cobsGroup l) (cobsEncode xs)
        (cobsGroup_nonzero l)
      rw [List.cons_append, h]
      rcases he : cobsEncode xs with _ | ⟨c0, e'⟩
      · exact absurd he (cobsEncode_ne_nil xs)
      · rw [he] at htail
        rw [htail]
        have hlt : (cobsGroup l).length + 1 < 255 := by
          have := cobsGroup_length_le l
          omega
        rw [hdrop, hx0] at happ
        simp [hlt, happ]


/-! ### Framer facts -/

theorem handleByte_rts (m : Nat) (st : RecvState) (b : Nat) :
    (handleByte m st b).rts = st.rts := by
  simp only [handleByte]
  split_ifs <;> rfl

theorem handleByte_bq (m : Nat) (st : RecvState) (b : Nat) :
    ((handleByte m st b).buffer, (handleByte m st b).queue)
      = stepBQ m (st.buffer, st.queue) b := by
  simp only [handleByte, stepBQ]
  split_ifs <;> rfl

theorem foldl_handleByte_rts (m : Nat) (bs : List Nat) (st : RecvState) :
    (bs.foldl (handleByte m) st).rts = st.rts := by
  induction bs generalizing st with
  | nil => rfl
  | cons b bs ih =>
    rw [List.foldl_cons, ih, handleByte_rts]

theorem foldl_handleByte_bq (m : Nat) (bs : List Nat) (st : RecvState) :
    ((bs.foldl (handleByte m) st).buffer, (bs.foldl (handleByte m) st).queue)
      = bs.foldl (stepBQ m) (st.buffer, st.queue) := by
  induction bs generalizing st with
  | nil => rfl
  | cons b bs ih =>
    rw [List.foldl_cons, ih, handleByte_bq, List.foldl_cons]

theorem handle_received_data_rts (high low m : Nat) (st : RecvState)
    (data : List Nat) :
    (handle_received_data high low m true st data).rts =
      if st.buffer.length > high then false
      else if st.buffer.length < low then true
      else st.rts := by
  unfold handle_received_data
  rw [foldl_handleByte_rts]
  split_ifs <;> simp_all

theorem handle_received_data_bq (high low m : Nat) (o : Bool) (st : RecvState)
    (data : List Nat) :
    ((handle_received_data high low m o st data).buffer,
      (handle_received_data high low m o st data).queue)
      = data.foldl (stepBQ m) (st.buffer, st.queue) := by
  unfold handle_received_data
  rw [foldl_handleByte_bq]
  split_ifs <;> simp_all

/-- Feeding a list of chunks one after the other moves `(buffer, queue)`
exactly as feeding the concatenated bytes one at a time. -/
theorem chunks_bq (high low m : Nat) (o : Bool) (frags : List (List Nat))
    (st : RecvState) :
    (((frags.foldl (handle_received_data high low m o) st).buffer),
      ((frags.foldl (handle_received_data high low m o) st).queue))
      = frags.flatten.foldl (stepBQ m) (st.buffer, st.queue) := by
  induction frags generalizing st with
  | nil => rfl
  | cons c cs ih =>
    rw [List.foldl_cons, ih, handle_received_data_bq, List.flatten_cons,
      List.foldl_append]

/-- A run of non-zero bytes that keeps the accumulator within the size
limit is appended verbatim and enqueues nothing. -/
theorem stepBQ_run (m : Nat) (bs : List Nat) (buf : List Nat)
    (q : List (List Nat)) (hnz : ∀ b ∈ bs, b ≠ 0)
    (hlen : buf.length + bs.length ≤ m) :
    bs.foldl (stepBQ m) (buf, q) = (buf ++ bs, q) := by
  induction bs generalizing buf with
  | nil => simp
  | cons b bs ih =>
    have hb : b ≠ 0 := hnz b (by simp)
    rw [List.foldl_cons]
    have hstep : stepBQ m (buf, q) b = (buf ++ [b], q) := by
      unfold stepBQ
      rw [if_neg hb]
      have hno : ¬(buf ++ [b]).length > m := by
        simp only [List.length_append, List.length_cons] at hlen ⊢
        simp
        omega
      rw [if_neg hno]
    rw [hstep, ih (buf ++ [b]) (fun x hx => hnz x (by simp [hx]))
      (by simp only [List.length_append, List.length_cons] at hlen ⊢; simp; omega)]
    simp

theorem stepBQ_delimiter_flush (m : Nat) (buf : List Nat) (q : List (List Nat))
    (hne : buf ≠ []) : stepBQ m (buf, q) 0 = ([], q ++ [buf]) := by
  unfold stepBQ
  rw [if_pos rfl, if_neg (by simpa using hne)]

theorem stepBQ_delimiter_empty (m : Nat) (q : List (List Nat)) :
    stepBQ m ([], q) 0 = ([], q) := by
  rfl

/-- C2: a well-sized zero-free frame followed by its delimiter, split
into arbitrary fragments, is reassembled into exactly one queued frame;
a delimiter on an empty accumulator enqueues nothing. -/
theorem framer_reassembles_fragmented_frame
    (frame : List Nat) (frags : List (List Nat)) (st : RecvState)
    (hbuf : st.buffer = [])
    (hne : frame ≠ [])
    (hnz : ∀ b ∈ frame, b ≠ 0)
    (hlen : frame.length ≤ 1024)
    (hsplit : frags.flatten = frame ++ [0]) :
    (frags.foldl (handle_received_data BUFFER_HIGH_WATER BUFFER_LOW_WATER 1024 true) st).queue
        = st.queue ++ [frame]
    ∧ (frags.foldl (handle_received_data BUFFER_HIGH_WATER BUFFER_LOW_WATER 1024 true) st).buffer
        = []
    ∧ (handle_received_data BUFFER_HIGH_WATER BUFFER_LOW_WATER 1024 true st [0]).queue
        = st.queue := by
  have hbq := chunks_bq BUFFER_HIGH_WATER BUFFER_LOW_WATER 1024 true frags st
  rw [hsplit, hbuf, List.foldl_append] at hbq
  rw [stepBQ_run 1024 frame [] st.queue hnz (by simpa using hlen)] at hbq
  simp only [List.nil_append, List.foldl_cons, List.foldl_nil] at hbq
  rw [stepBQ_delimiter_flush 1024 frame st.queue hne] at hbq
  have hsingle := handle_received_data_bq BUFFER_HIGH_WATER BUFFER_LOW_WATER 1024 true st [0]
  rw [hbuf] at hsingle
  simp only [List.foldl_cons, List.foldl_nil, stepBQ_delimiter_empty] at hsingle
  exact ⟨congrArg Prod.snd hbq, congrArg Prod.fst hbq, congrArg Prod.snd hsingle⟩

/-- C2 witness: frame `[1, 2]` fed as fragments `[1]`, `[2]`, `[0]`. -/
theorem framer_reassembles_fragmented_frame_witness :
    (([1, 2] : List Nat) ≠ []) ∧
    ((([[1], [2], [0]] : List (List Nat)).foldl
        (handle_received_data BUFFER_HIGH_WATER BUFFER_LOW_WATER 1024 true)
        ⟨0, true, [], []⟩).queue = [] ++ [[1, 2]]
      ∧ (([[1], [2], [0]] : List (List Nat)).foldl
          (handle_received_data BUFFER_HIGH_WATER BUFFER_LOW_WATER 1024 true)
          ⟨0, true, [], []⟩).buffer = []
      ∧ (handle_received_data BUFFER_HIGH_WATER BUFFER_LOW_WATER 1024 true
          ⟨0, true, [], []⟩ [0]).queue = []) :=
  ⟨by decide,
    framer_reassembles_fragmented_frame [1, 2] [[1], [2], [0]] ⟨0, true, [], []⟩
      rfl (by decide) (by decide) (by decide) (by decide)⟩

/-- C5 counterexample: with `MAX_FRAME_SIZE = 3`, feeding `ABCDE` leaves
the tail byte `E` in the accumulator (it is not discarded), and a
following delimiter queues that partial tail as a frame, contradicting
"discards every subsequent non-delimiter byte … queuing no frame". -/
theorem framer_oversize_cex :
    (handle_received_data BUFFER_HIGH_WATER BUFFER_LOW_WATER 3 true
        ⟨0, true, [], []⟩ [65, 66, 67, 68, 69]).buffer = [69]
    ∧ (handle_received_data BUFFER_HIGH_WATER BUFFER_LOW_WATER 3 true
        ⟨0, true, [], []⟩ [65, 66, 67, 68, 69, 0]).queue = [[69]] := by
  constructor
  · have h := handle_received_data_bq BUFFER_HIGH_WATER BUFFER_LOW_WATER 3 true
      ⟨0, true, [], []⟩ [65, 66, 67, 68, 69]
    have hval : ([65, 66, 67, 68, 69] : List Nat).foldl (stepBQ 3) ([], []) = ([69], []) := by
      decide
    rw [hval] at h
    exact congrArg Prod.fst h
  · have h := handle_received_data_bq BUFFER_HIGH_WATER BUFFER_LOW_WATER 3 true
      ⟨0, true, [], []⟩ [65, 66, 67, 68, 69, 0]
    have hval : ([65, 66, 67, 68, 69, 0] : List Nat).foldl (stepBQ 3) ([], []) = ([], [[69]]) := by
      decide
    rw [hval] at h
    exact congrArg Prod.snd h

/-- C5 (amended): when an appended byte overflows the limit the framer
clears the accumulator and queues nothing at that point, but subsequent
bytes accumulate into a fresh frame rather than being discarded: with
`MAX_FRAME_SIZE = 3`, feeding `ABCDE` leaves the single-byte tail `E`
in the accumulator with no frame queued. -/
theorem framer_oversize_clears_and_restarts (m : Nat) (st : RecvState)
    (byte : Nat) (hb : byte ≠ 0) (hover : st.buffer.length + 1 > m) :
    (handleByte m st byte).buffer = []
    ∧ (handleByte m st byte).queue = st.queue
    ∧ (handle_received_data BUFFER_HIGH_WATER BUFFER_LOW_WATER 3 true
        ⟨0, true, [], []⟩ [65, 66, 67, 68, 69]).buffer = [69]
    ∧ (handle_received_data BUFFER_HIGH_WATER BUFFER_LOW_WATER 3 true
        ⟨0, true, [], []⟩ [65, 66, 67, 68, 69]).queue = [] := by
  have hstep : handleByte m st byte = { st with buffer := [] } := by
    unfold handleByte
    rw [if_neg hb]
    have : (st.buffer ++ [byte]).length > m := by
      simp only [List.length_append, List.length_cons, List.length_nil]
      omega
    rw [if_pos this]
  have h := handle_received_data_bq BUFFER_HIGH_WATER BUFFER_LOW_WATER 3 true
    ⟨0, true, [], []⟩ [65, 66, 67, 68, 69]
  have hval : ([65, 66, 67, 68, 69] : List Nat).foldl (stepBQ 3) ([], []) = ([69], []) := by
    decide
  rw [hval] at h
  exact ⟨by rw [hstep], by rw [hstep],
    congrArg Prod.fst h, congrArg Prod.snd h⟩

/-- C5 amended witness: overflow step at `MAX_FRAME_SIZE = 3` with a
full accumulator. -/
theorem framer_oversize_clears_and_restarts_witness :
    ((68 : Nat) ≠ 0) ∧ (([65, 66, 67] : List Nat).length + 1 > 3) ∧
    ((handleByte 3 ⟨0, true, [65, 66, 67], []⟩ 68).buffer = []
      ∧ (handleByte 3 ⟨0, true, [65, 66, 67], []⟩ 68).queue = []
      ∧ (handle_received_data BUFFER_HIGH_WATER BUFFER_LOW_WATER 3 true
          ⟨0, true, [], []⟩ [65, 66, 67, 68, 69]).buffer = [69]
      ∧ (handle_received_data BUFFER_HIGH_WATER BUFFER_LOW_WATER 3 true
          ⟨0, true, [], []⟩ [65, 66, 67, 68, 69]).queue = []) :=
  ⟨by decide, by decide,
    framer_oversize_clears_and_restarts 3 ⟨0, true, [65, 66, 67], []⟩ 68
      (by decide) (by decide)⟩

/-- C6 counterexample: delivering 769 non-zero bytes to an empty
accumulator leaves the accumulator at length 769 > `BUFFER_HIGH_WATER`,
yet RTS stays asserted — the code updated RTS before processing the
chunk, from the pre-chunk accumulator length 0. -/
theorem framer_rts_cex :
    (handle_received_data BUFFER_HIGH_WATER BUFFER_LOW_WATER 1024 true
        ⟨0, true, [], []⟩ (List.replicate 769 1)).buffer.length = 769
    ∧ (handle_received_data BUFFER_HIGH_WATER BUFFER_LOW_WATER 1024 true
        ⟨0, true, [], []⟩ (List.replicate 769 1)).rts = true := by
  constructor
  · have h := handle_received_data_bq BUFFER_HIGH_WATER BUFFER_LOW_WATER 1024 true
      ⟨0, true, [], []⟩ (List.replicate 769 1)
    rw [stepBQ_run 1024 (List.replicate 769 1) [] []
      (by intro b hb; rw [List.eq_of_mem_replicate hb]; decide)
      (by simp only [List.length_nil, List.length_replicate]; norm_num)] at h
    have hb := congrArg Prod.fst h
    simp only at hb
    rw [hb]
    simp only [List.nil_append, List.length_replicate]
  · rw [handle_received_data_rts]
    norm_num [BUFFER_HIGH_WATER, BUFFER_LOW_WATER]

/-- C6 (amended): RTS is updated at the start of each chunk, before the
chunk's bytes are processed, from the accumulator length carried over
from previous chunks: deasserted when that length exceeds the high
watermark, reasserted when below the low watermark, unchanged in
between. -/
theorem framer_rts_hysteresis_prechunk (high low m : Nat) (st : RecvState)
    (data : List Nat) :
    (handle_received_data high low m true st data).rts =
      if st.buffer.length > high then false
      else if st.buffer.length < low then true
      else st.rts :=
  handle_received_data_rts high low m st data

/-! ### Checksum facts -/

theorem foldl_xor_eq (c : Nat) (l : List Nat) :
    l.foldl (fun checksum byte => checksum ^^^ byte) c = c ^^^ xorFold l := by
  induction l generalizing c with
  | nil => simp [xorFold]
  | cons b bs ih =>
    simp only [List.foldl_cons, xorFold]
    rw [ih (c ^^^ b), ih (0 ^^^ b)]
    rw [Nat.zero_xor, Nat.xor_assoc]

theorem xorFold_append (a b : List Nat) :
    xorFold (a ++ b) = xorFold a ^^^ xorFold b := by
  unfold xorFold
  rw [List.foldl_append, foldl_xor_eq (List.foldl _ 0 a) b]
  rfl

/-- C8: `calculate_checksum` returns the single byte XOR of all input
bytes: `[0]` on the empty string, `[b]` on a singleton, and XOR
homomorphism over concatenation. -/
theorem checksum_xor_laws :
    (∀ data : List Nat, calculate_checksum data = [xorFold data])
    ∧ calculate_checksum [] = [0]
    ∧ (∀ b : Nat, calculate_checksum [b] = [b])
    ∧ (∀ a b : List Nat, calculate_checksum (a ++ b) = [xorFold a ^^^ xorFold b]) := by
  refine ⟨fun data => rfl, rfl, fun b => ?_, fun a b => ?_⟩
  · simp [calculate_checksum, xorFold]
  · rw [calculate_checksum, xorFold_append]

/-! ### Write-path facts -/

/-- C1: for every payload `p` with at least 2 bytes, `write` transmits
exactly `COBS(p ‖ checksum(p)) ‖ 0x00`; the encoded body contains no
zero byte; and stripping the delimiter and COBS-decoding returns
`p ‖ checksum(p)`. -/
theorem write_frame_roundtrip (p : List Nat) (st : WriteState)
    (hlen : 2 ≤ p.length) :
    (SerialInterface_write true false st p).transmitted
        = st.transmitted ++ [cobsEncode (p ++ calculate_checksum p) ++ [0]]
    ∧ (∀ b ∈ cobsEncode (p ++ calculate_checksum p), b ≠ 0)
    ∧ (cobsEncode (p ++ calculate_checksum p) ++ [0]).dropLast
        = cobsEncode (p ++ calculate_checksum p)
    ∧ cobsDecode ((cobsEncode (p ++ calculate_checksum p) ++ [0]).dropLast)
        = some (p ++ calculate_checksum p) := by
  refine ⟨?_, cobsEncode_no_zero _, List.dropLast_concat, ?_⟩
  · unfold SerialInterface_write
    rcases hp : p[1]? with _ | b
    · simp [hp]
    · simp [hp]
  · rw [List.dropLast_concat]
    exact cobsDecode_cobsEncode _

/-- C1 witness at payload `[0x00, 0x14]` (an ECHO header). -/
theorem write_frame_roundtrip_witness :
    2 ≤ ([0, 20] : List Nat).length
    ∧ ((SerialInterface_write true false ⟨0, [], []⟩ [0, 20]).transmitted
        = [] ++ [cobsEncode ([0, 20] ++ calculate_checksum [0, 20]) ++ [0]]
      ∧ (∀ b ∈ cobsEncode ([0, 20] ++ calculate_checksum [0, 20]), b ≠ 0)
      ∧ (cobsEncode ([0, 20] ++ calculate_checksum [0, 20]) ++ [0]).dropLast
          = cobsEncode ([0, 20] ++ calculate_checksum [0, 20])
      ∧ cobsDecode ((cobsEncode ([0, 20] ++ calculate_checksum [0, 20]) ++ [0]).dropLast)
          = some ([0, 20] ++ calculate_checksum [0, 20])) :=
  ⟨by decide, write_frame_roundtrip [0, 20] ⟨0, [], []⟩ (by decide)⟩

/-- C10: a payload shorter than 2 bytes is still framed and transmitted
(the `IndexError` on `data[1]` fires only after the port write):
`bytes_sent` grows by the frame length while `commands_sent` is left
unchanged, and no exception escapes (the caught branch returns
normally). -/
theorem write_short_payload_effect (st : WriteState) (data : List Nat)
    (hshort : data.length < 2) :
    (SerialInterface_write true false st data).transmitted
        = st.transmitted ++ [cobsEncode (data ++ calculate_checksum data) ++ [0]]
    ∧ (SerialInterface_write true false st data).bytes_sent
        = st.bytes_sent + (cobsEncode (data ++ calculate_checksum data) ++ [0]).length
    ∧ (SerialInterface_write true false st data).commands_sent
        = st.commands_sent := by
  have hnone : data[1]? = none := List.getElem?_eq_none (by omega)
  unfold SerialInterface_write
  simp [hnone]

/-- C10 witness at the one-byte payload `[0x07]`. -/
theorem write_short_payload_effect_witness :
    ([7] : List Nat).length < 2
    ∧ ((SerialInterface_write true false ⟨0, [], []⟩ [7]).transmitted
        = [] ++ [cobsEncode ([7] ++ calculate_checksum [7]) ++ [0]]
      ∧ (SerialInterface_write true false ⟨0, [], []⟩ [7]).bytes_sent
          = 0 + (cobsEncode ([7] ++ calculate_checksum [7]) ++ [0]).length
      ∧ (SerialInterface_write true false ⟨0, [], []⟩ [7]).commands_sent = []) :=
  ⟨by decide, write_short_payload_effect ⟨0, [], []⟩ [7] (by decide)⟩

/-! ### Processor facts -/

/-- C3: the intended per-frame handler (both `cobs.DecodeError` and
`IndexError` caught) returns normally on a truncated COBS frame `[0x02]`
(decode failure) and on `[0x01]` (decodes to an empty payload, index
error on byte 1), leaving the processor state unchanged — no exception
reaches the processor loop.  The shipped source cannot exhibit this
behaviour: its `except IndexError, cobs.DecodeError:` is a Python 3
syntax error. -/
theorem processor_skips_bad_frames :
    process_complete_message ⟨[], []⟩ [2] = ⟨[], []⟩
    ∧ process_complete_message ⟨[], []⟩ [1] = ⟨[], []⟩ := by
  constructor
  · unfold process_complete_message
    have h : cobsDecode [2] = none := by
      rw [cobsDecode]
      rfl
    rw [h]
  · unfold process_complete_message
    have h : cobsDecode [1] = some [] := by
      rw [cobsDecode]
      rfl
    rw [h]
    rfl

/-! ### Latency meter facts -/

/-- C4: the list-based `LatencyTest` records a latency for a stale ECHO
response (counter 7, never published in the burst): `latency_message[7]`
is the initial `0.0`, so `now - 0.0` is appended to `latency_results`,
and the dropped count `samples - len(latency_results)` goes negative —
the received records are not a subset of the sent records. -/
theorem latency_stale_echo_recorded :
    (LT_handle_message 5 LT_init ECHO_COMMAND [0, 20, 2, 0, 7]).latency_results = [5]
    ∧ LT_dropped_messages 0 (LT_handle_message 5 LT_init ECHO_COMMAND [0, 20, 2, 0, 7]) = -1 := by
  have hg : LT_init.latency_message.getD (0 * 256 + 7) 0 = 0 := by
    unfold LT_init
    rw [List.getD_eq_getElem?_getD, List.getElem?_replicate,
      if_pos (by norm_num [MAX_SAMPLE_SIZE])]
    rfl
  have h1 : (LT_handle_message 5 LT_init ECHO_COMMAND [0, 20, 2, 0, 7]).latency_results = [5] := by
    show LT_init.latency_results ++ [(5 : ℚ) - LT_init.latency_message.getD (0 * 256 + 7) 0] = [5]
    rw [hg]
    norm_num [LT_init]
  refine ⟨h1, ?_⟩
  unfold LT_dropped_messages
  rw [h1]
  decide

/-! ### Samples-guard facts -/

/-- C9: the guard `if num_samples <= 0 and num_samples < MAX_SAMPLE_SIZE`
never rejects large values: 70000 samples pass through unchanged, yet the
two-byte counter encoding in `publish` overflows at counter 65536, which
such a burst reaches. -/
theorem samples_guard_overflow :
    validate_num_samples 70000 = 70000
    ∧ (65536 : Int) < 70000
    ∧ to_bytes_be_2 65536 = none := by
  refine ⟨?_, by decide, by decide⟩
  unfold validate_num_samples
  rw [if_neg]
  simp [MAX_SAMPLE_SIZE]

/-! ### Verdict engine facts -/

/-- C7: `evaluate_verdict` returns FAIL exactly when the drop ratio
(with the noise-profile subtraction and the `sent = 0` convention built
into `drop_ratio_of`) strictly exceeds `max_echo_drop_ratio` or some
configured error-counter delta is strictly above its limit; otherwise
WARN exactly when the interpolated P95 strictly exceeds
`max_p95_latency_ms`; otherwise PASS — and a drop ratio exactly equal
to the limit (1000 sent, 999 received, limit 1/1000) yields PASS. -/
theorem evaluate_verdict_characterization (cfg : ScenarioConfig)
    (messages_sent messages_received : Nat) (latencies_ms : List ℚ)
    (status_delta : List (String × Int)) :
    (evaluate_verdict cfg messages_sent messages_received latencies_ms status_delta
        = Verdict.FAIL
      ↔ failCond cfg messages_sent messages_received status_delta)
    ∧ (evaluate_verdict cfg messages_sent messages_received latencies_ms status_delta
        = Verdict.WARN
      ↔ (¬ failCond cfg messages_sent messages_received status_delta
          ∧ percentile latencies_ms 95 > cfg.thresholds.max_p95_latency_ms))
    ∧ (evaluate_verdict cfg messages_sent messages_received latencies_ms status_delta
        = Verdict.PASS
      ↔ (¬ failCond cfg messages_sent messages_received status_delta
          ∧ ¬ percentile latencies_ms 95 > cfg.thresholds.max_p95_latency_ms))
    ∧ evaluate_verdict ⟨"echo_only", ⟨1/1000, [], 50⟩⟩ 1000 999 [] []
        = Verdict.PASS := by
  have hb : ((decide (drop_ratio_of cfg messages_sent messages_received status_delta
        > cfg.thresholds.max_echo_drop_ratio))
      || cfg.thresholds.max_error_counter_deltas.any
          (fun kv => decide (deltaGet status_delta kv.1 > kv.2))) = true
      ↔ failCond cfg messages_sent messages_received status_delta := by
    rw [Bool.or_eq_true, decide_eq_true_iff, List.any_eq_true]
    unfold failCond
    simp only [decide_eq_true_iff]
  refine ⟨?_, ?_, ?_, ?_⟩
  · simp only [evaluate_verdict]
    by_cases hf : failCond cfg messages_sent messages_received status_delta
    · rw [hb.mpr hf]
      simp [hf]
    · rw [eq_false_of_ne_true (fun h => hf (hb.mp h))]
      by_cases hw : percentile latencies_ms 95 > cfg.thresholds.max_p95_latency_ms
      · simp [hf, hw]
      · simp [hf, hw]
  · simp only [evaluate_verdict]
    by_cases hf : failCond cfg messages_sent messages_received status_delta
    · rw [hb.mpr hf]
      simp [hf]
    · rw [eq_false_of_ne_true (fun h => hf (hb.mp h))]
      by_cases hw : percentile latencies_ms 95 > cfg.thresholds.max_p95_latency_ms
      · simp [hf, hw]
      · simp [hf, hw]
  · simp only [evaluate_verdict]
    by_cases hf : failCond cfg messages_sent messages_received status_delta
    · rw [hb.mpr hf]
      simp [hf]
    · rw [eq_false_of_ne_true (fun h => hf (hb.mp h))]
      by_cases hw : percentile latencies_ms 95 > cfg.thresholds.max_p95_latency_ms
      · simp [hf, hw]
      · simp [hf, hw]
  · have hs : ¬(("echo_only" : String) = "noise_and_recovery") := by decide
    norm_num [evaluate_verdict, drop_ratio_of, percentile, eq_false hs]

end SignalBridge
